import Mathlib

/-!
Verification of the record/replay HTTP transport of the `plundered`
repository (`recorder/recorder.go`).

The embedding models Go byte strings (`[]byte` / `string`) as `List Char`
(one `Char` per byte; all fixture data handled here is ASCII), machine
words in the MD5 hash as `Nat` reduced modulo `2 ^ 32`, the fixture store
(`fs.FS` / a directory of files) as an association list from file names to
file contents, and the side effects of a `RoundTrip` call (directory
creation, file writes, the network call) as an explicit event trace
produced together with the result.
-/

/-- Byte strings: Go `[]byte` and `string` values, one `Char` per byte. -/
abbrev Bytes := List Char

/-- The `"\r\n"` line terminator of the HTTP wire format. -/
def crlf : Bytes := ['\r', '\n']

/-- The `": "` separator between a header key and its value. -/
def colonSp : Bytes := [':', ' ']

/-- Split a byte string at the first occurrence of `sep`, returning the
parts strictly before and strictly after it, or `none` when `sep` does
not occur.  This is the primitive behind the line-oriented parsing that
`http.ReadResponse` performs on a recorded fixture. -/
def splitOnFirst (sep : Bytes) : Bytes → Option (Bytes × Bytes)
  | [] => none
  | c :: cs =>
    if sep <+: (c :: cs) then some ([], (c :: cs).drop sep.length)
    else (splitOnFirst sep cs).map (fun p => (c :: p.1, p.2))

theorem splitOnFirst_cons_pos {sep : Bytes} {c : Char} {cs : Bytes}
    (h : sep <+: (c :: cs)) :
    splitOnFirst sep (c :: cs) = some ([], (c :: cs).drop sep.length) := by
  simp [splitOnFirst, h]

theorem splitOnFirst_cons_neg {sep : Bytes} {c : Char} {cs : Bytes}
    (h : ¬ sep <+: (c :: cs)) :
    splitOnFirst sep (c :: cs)
      = (splitOnFirst sep cs).map (fun p => (c :: p.1, p.2)) := by
  simp [splitOnFirst, h]

/-- If the head of a list is a prefix-mismatch witness: two cons cells can
only be prefixes of one another when their heads agree. -/
theorem head_eq_of_cons_pre {c d : Char} {l l' : Bytes}
    (h : (c :: l) <+: (d :: l')) : c = d := by
  obtain ⟨t, ht⟩ := h
  simpa using congrArg (fun x => x.head?) ht

/-- The head of a nonempty suffix of `l` is an element of `l`. -/
theorem head_mem_of_suffix {c : Char} {u l : Bytes} (h : (c :: u) <:+ l) :
    c ∈ l :=
  h.subset (List.mem_cons_self c u)

/-- When the first character `s₀` of the separator occurs nowhere in `a`,
no occurrence of the separator can start inside `a`. -/
theorem no_early_sep {s₀ : Char} {sep' a rest : Bytes} (ha : s₀ ∉ a) :
    ∀ u, u <:+ a → u ≠ [] → ¬ (s₀ :: sep') <+: (u ++ rest) := by
  intro u hu hne hp
  match u, hne with
  | c :: u', _ =>
    have hc : c ∈ a := head_mem_of_suffix hu
    have : s₀ = c := head_eq_of_cons_pre (by simpa using hp)
    exact ha (this ▸ hc)

/-- Splitting skips over a region `a` in which no occurrence of `sep`
starts. -/
theorem splitOnFirst_append_of_no_early {sep : Bytes} :
    ∀ (a rest : Bytes),
      (∀ u, u <:+ a → u ≠ [] → ¬ sep <+: (u ++ rest)) →
      splitOnFirst sep (a ++ rest)
        = (splitOnFirst sep rest).map (fun p => (a ++ p.1, p.2)) := by
  intro a
  induction a with
  | nil =>
    intro rest _
    cases h : splitOnFirst sep rest <;> simp [h]
  | cons c a' ih =>
    intro rest H
    have hc : ¬ sep <+: (c :: (a' ++ rest)) := by
      have := H (c :: a') List.suffix_rfl (by simp)
      simpa using this
    have hrec := ih rest (fun u hu hne => H u (hu.trans (List.suffix_cons c a')) hne)
    rw [List.cons_append, splitOnFirst_cons_neg hc, hrec]
    cases splitOnFirst sep rest <;> simp

/-- When no occurrence of `sep` starts inside `a`, splitting
`a ++ sep ++ b` finds exactly the boundary occurrence. -/
theorem splitOnFirst_at_sep {sep : Bytes} (hsep : sep ≠ []) (a b : Bytes)
    (H : ∀ u, u <:+ a → u ≠ [] → ¬ sep <+: (u ++ (sep ++ b))) :
    splitOnFirst sep (a ++ (sep ++ b)) = some (a, b) := by
  rw [splitOnFirst_append_of_no_early a (sep ++ b) H]
  match sep, hsep with
  | s₀ :: sep', _ =>
    have hsplit : (s₀ :: sep') ++ b = s₀ :: (sep' ++ b) := List.cons_append ..
    rw [List.cons_append, splitOnFirst_cons_pos (by rw [← hsplit]; exact List.prefix_append _ _)]
    have hd : (s₀ :: (sep' ++ b)).drop (s₀ :: sep').length = b := by
      rw [← hsplit, List.drop_left]
    rw [hd]
    simp

/-- If a byte string contains no occurrence of the first separator
character, the split fails. -/
theorem splitOnFirst_eq_none {s₀ : Char} {sep' : Bytes} :
    ∀ {s : Bytes}, s₀ ∉ s → splitOnFirst (s₀ :: sep') s = none := by
  intro s
  induction s with
  | nil => intro _; rfl
  | cons c cs ih =>
    intro h
    have hc : ¬ (s₀ :: sep') <+: (c :: cs) := by
      intro hp
      exact h (head_eq_of_cons_pre hp ▸ List.mem_cons_self c cs)
    rw [splitOnFirst_cons_neg hc, ih (fun hm => h (List.mem_cons_of_mem c hm))]
    rfl

/-- Splitting produces a strictly shorter remainder (used for fuel
bounds in the header-line parser). -/
theorem splitOnFirst_length {sep : Bytes} :
    ∀ {s a b : Bytes}, splitOnFirst sep s = some (a, b) →
      a.length + sep.length + b.length = s.length := by
  intro s
  induction s with
  | nil => intro a b h; simp [splitOnFirst] at h
  | cons c cs ih =>
    intro a b h
    by_cases hp : sep <+: (c :: cs)
    · rw [splitOnFirst_cons_pos hp] at h
      obtain ⟨rfl, rfl⟩ := Prod.mk.injEq .. ▸ Option.some.injEq .. ▸ h
      have hlen : sep.length ≤ (c :: cs).length := hp.length_le
      rw [List.length_drop]
      simp only [List.length_cons, List.length_nil] at hlen ⊢
      omega
    · rw [splitOnFirst_cons_neg hp] at h
      cases hrec : splitOnFirst sep cs with
      | none => rw [hrec] at h; simp at h
      | some p =>
        rw [hrec] at h
        simp at h
        obtain ⟨rfl, rfl⟩ := h
        have := ih hrec
        simp
        omega

/-! ### HTTP requests and responses

The model keeps the parts of `http.Request` / `http.Response` that the
recorder serializes: method, URL, headers and body for a request; status
line, headers and body for a response.  `status` is the Go
`Response.Status` string (for example `"200 OK"`). -/

structure Request where
  method : Bytes
  url : Bytes
  headers : List (Bytes × Bytes)
  body : Bytes
deriving DecidableEq

structure Response where
  status : Bytes
  headers : List (Bytes × Bytes)
  body : Bytes
deriving DecidableEq

/-- One `"Key: Value\r\n"` line per header, in order, as written by
`httputil.DumpRequest` / `httputil.DumpResponse`. -/
def headerBlock (hs : List (Bytes × Bytes)) : Bytes :=
  (hs.map (fun kv => kv.1 ++ (colonSp ++ (kv.2 ++ crlf)))).flatten

/-- The protocol-and-space part of a status line. -/
def httpVer : Bytes := "HTTP/1.1 ".toList

/-- Serialization of a request performed by `httputil.DumpRequest(req, true)`:
request line, header lines, a blank line, then the body bytes. -/
def dumpRequest (r : Request) : Bytes :=
  (r.method ++ (' ' :: (r.url ++ " HTTP/1.1".toList)))
    ++ (crlf ++ (headerBlock r.headers ++ (crlf ++ r.body)))

/-- Serialization of a response performed by
`httputil.DumpResponse(res, true)`: status line, header lines, a blank
line, then the body bytes. -/
def dumpResponse (r : Response) : Bytes :=
  (httpVer ++ r.status) ++ (crlf ++ (headerBlock r.headers ++ (crlf ++ r.body)))

/-- Parse one `"Key: Value"` header line. -/
def parseHeaderLine (l : Bytes) : Option (Bytes × Bytes) :=
  splitOnFirst colonSp l

/-- Parse the header region: CRLF-terminated header lines up to the blank
line that separates headers from the body, as `http.ReadResponse` does.
`fuel` bounds the recursion; `readResponse` supplies more fuel than there
can be lines. -/
def parseHeaderLines : Nat → Bytes → Option (List (Bytes × Bytes) × Bytes)
  | 0, _ => none
  | fuel + 1, s =>
    match splitOnFirst crlf s with
    | none => none
    | some (line, rest) =>
      if line = [] then some ([], rest)
      else
        match parseHeaderLine line with
        | none => none
        | some kv =>
          (parseHeaderLines fuel rest).map (fun p => (kv :: p.1, p.2))

/-- Parse the `"HTTP/1.1 <status>"` status line. -/
def parseStatusLine (l : Bytes) : Option Bytes :=
  if httpVer <+: l then some (l.drop httpVer.length) else none

/-- Deserialization of a recorded response fixture, as performed by
`http.ReadResponse` over the stored bytes: status line, header lines,
blank line, body (everything after the blank line). -/
def readResponse (b : Bytes) : Option Response :=
  match splitOnFirst crlf b with
  | none => none
  | some (sl, rest) =>
    match parseStatusLine sl, parseHeaderLines (rest.length + 1) rest with
    | some st, some (hs, body) => some ⟨st, hs, body⟩
    | _, _ => none

/-- Well-formedness of a response for faithful round-tripping through the
text fixture format: no carriage return in the status or in header keys
and values (a CR would corrupt the line structure of the fixture, in Go
exactly as here), and no colon inside a header key. -/
def wfResponse (r : Response) : Prop :=
  '\r' ∉ r.status ∧
    ∀ kv ∈ r.headers, ':' ∉ kv.1 ∧ '\r' ∉ kv.1 ∧ '\r' ∉ kv.2

instance (r : Response) : Decidable (wfResponse r) := by
  unfold wfResponse; infer_instance

theorem crlf_ne_nil : crlf ≠ [] := by simp [crlf]

/-- A header line `k ++ ": " ++ v` splits back into `(k, v)` when the key
contains no colon. -/
theorem parseHeaderLine_roundTrip {k v : Bytes} (hk : ':' ∉ k) :
    parseHeaderLine (k ++ (colonSp ++ v)) = some (k, v) := by
  unfold parseHeaderLine
  exact splitOnFirst_at_sep (by simp [colonSp]) k v (no_early_sep hk)

/-- Splitting a CR-free line off its CRLF terminator. -/
theorem splitOnFirst_crlf_line {l rest : Bytes} (hl : '\r' ∉ l) :
    splitOnFirst crlf (l ++ (crlf ++ rest)) = some (l, rest) :=
  splitOnFirst_at_sep crlf_ne_nil l rest (no_early_sep hl)

theorem headerBlock_wf_parse {body : Bytes} :
    ∀ (hs : List (Bytes × Bytes)) (fuel : Nat),
      (headerBlock hs ++ (crlf ++ body)).length ≤ fuel →
      (∀ kv ∈ hs, ':' ∉ kv.1 ∧ '\r' ∉ kv.1 ∧ '\r' ∉ kv.2) →
      parseHeaderLines fuel (headerBlock hs ++ (crlf ++ body))
        = some (hs, body) := by
  intro hs
  induction hs with
  | nil =>
    intro fuel hfuel _
    match fuel, hfuel with
    | fuel + 1, _ =>
      have h0 : splitOnFirst crlf (headerBlock [] ++ (crlf ++ body))
          = some ([], body) := by
        have : headerBlock [] ++ (crlf ++ body) = [] ++ (crlf ++ body) := by
          simp [headerBlock]
        rw [this]
        exact splitOnFirst_at_sep crlf_ne_nil [] body
          (by intro u hu hne; rw [List.suffix_nil] at hu; exact absurd hu hne)
      simp [parseHeaderLines, h0]
    | 0, hfuel => simp [headerBlock, crlf] at hfuel
  | cons kv hs ih =>
    intro fuel hfuel hwf
    obtain ⟨hkcolon, hkcr, hvcr⟩ := hwf kv (List.mem_cons_self kv hs)
    have hline : '\r' ∉ kv.1 ++ (colonSp ++ kv.2) := by
      intro hmem
      rcases List.mem_append.mp hmem with h | h
      · exact hkcr h
      rcases List.mem_append.mp h with h | h
      · simp [colonSp] at h
      · exact hvcr h
    have hassoc : headerBlock (kv :: hs) ++ (crlf ++ body)
        = (kv.1 ++ (colonSp ++ kv.2))
            ++ (crlf ++ (headerBlock hs ++ (crlf ++ body))) := by
      simp [headerBlock, List.append_assoc]
    match fuel, hfuel with
    | 0, hfuel => simp [crlf] at hfuel
    | fuel + 1, hfuel =>
      have hsplit := @splitOnFirst_crlf_line (kv.1 ++ (colonSp ++ kv.2))
        (headerBlock hs ++ (crlf ++ body)) hline
      have hne : ¬ (kv.1 ++ (colonSp ++ kv.2)) = ([] : Bytes) := by
        simp [colonSp]
      have hrec : parseHeaderLines fuel (headerBlock hs ++ (crlf ++ body))
          = some (hs, body) := by
        apply ih fuel _ (fun kv' h => hwf kv' (List.mem_cons_of_mem kv h))
        rw [hassoc] at hfuel
        simp only [List.length_append] at hfuel ⊢
        have hc2 : crlf.length = 2 := rfl
        have hcs : colonSp.length = 2 := rfl
        omega
      rw [hassoc]
      simp only [parseHeaderLines, hsplit, hne, if_false,
        parseHeaderLine_roundTrip hkcolon, hrec]
      rfl

/-- Key round trip: deserializing the dump of a well-formed response gives
back exactly that response. -/
theorem readResponse_dumpResponse {r : Response} (h : wfResponse r) :
    readResponse (dumpResponse r) = some r := by
  obtain ⟨hst, hhs⟩ := h
  have hsl : '\r' ∉ httpVer ++ r.status := by
    intro hmem
    rcases List.mem_append.mp hmem with hm | hm
    · simp [httpVer] at hm
    · exact hst hm
  have hsplit := @splitOnFirst_crlf_line
    (httpVer ++ r.status) (headerBlock r.headers ++ (crlf ++ r.body)) hsl
  have hstatus : parseStatusLine (httpVer ++ r.status) = some r.status := by
    unfold parseStatusLine
    rw [if_pos (List.prefix_append _ _), List.drop_left]
  have hlines := @headerBlock_wf_parse r.body r.headers
    ((headerBlock r.headers ++ (crlf ++ r.body)).length + 1) (by omega) hhs
  unfold readResponse dumpResponse
  rw [hsplit]
  dsimp only
  rw [hstatus, hlines]

/-! ### Fingerprinting: MD5, URL-safe base64, `buildName`

`buildName` in `recorder.go` hashes the serialized request with
`crypto/md5`, encodes the digest with `base64.URLEncoding` and keeps the
first 8 characters.  MD5 (RFC 1321) is implemented here over `Nat` with
explicit reduction modulo `2 ^ 32`. -/

/-- Two to the thirty-second power, the word modulus of MD5. -/
def w32 : Nat := 4294967296

/-- Left-rotation of a 32-bit word. -/
def rotl32 (x s : Nat) : Nat := (x * 2 ^ s + x / 2 ^ (32 - s)) % w32

/-- The sine-derived constant table of MD5. -/
def md5K : List Nat :=
  [0xd76aa478, 0xe8c7b756, 0x242070db, 0xc1bdceee,
   0xf57c0faf, 0x4787c62a, 0xa8304613, 0xfd469501,
   0x698098d8, 0x8b44f7af, 0xffff5bb1, 0x895cd7be,
   0x6b901122, 0xfd987193, 0xa679438e, 0x49b40821,
   0xf61e2562, 0xc040b340, 0x265e5a51, 0xe9b6c7aa,
   0xd62f105d, 0x02441453, 0xd8a1e681, 0xe7d3fbc8,
   0x21e1cde6, 0xc33707d6, 0xf4d50d87, 0x455a14ed,
   0xa9e3e905, 0xfcefa3f8, 0x676f02d9, 0x8d2a4c8a,
   0xfffa3942, 0x8771f681, 0x6d9d6122, 0xfde5380c,
   0xa4beea44, 0x4bdecfa9, 0xf6bb4b60, 0xbebfbc70,
   0x289b7ec6, 0xeaa127fa, 0xd4ef3085, 0x04881d05,
   0xd9d4d039, 0xe6db99e5, 0x1fa27cf8, 0xc4ac5665,
   0xf4292244, 0x432aff97, 0xab9423a7, 0xfc93a039,
   0x655b59c3, 0x8f0ccc92, 0xffeff47d, 0x85845dd1,
   0x6fa87e4f, 0xfe2ce6e0, 0xa3014314, 0x4e0811a1,
   0xf7537e82, 0xbd3af235, 0x2ad7d2bb, 0xeb86d391]

/-- The per-round shift table of MD5. -/
def md5S : List Nat :=
  [7, 12, 17, 22, 7, 12, 17, 22, 7, 12, 17, 22, 7, 12, 17, 22,
   5, 9, 14, 20, 5, 9, 14, 20, 5, 9, 14, 20, 5, 9, 14, 20,
   4, 11, 16, 23, 4, 11, 16, 23, 4, 11, 16, 23, 4, 11, 16, 23,
   6, 10, 15, 21, 6, 10, 15, 21, 6, 10, 15, 21, 6, 10, 15, 21]

/-- Little-endian 32-bit word `g` of a 64-byte block. -/
def wordAt (block : List Nat) (g : Nat) : Nat :=
  block.getD (4 * g) 0 + 256 * block.getD (4 * g + 1) 0
    + 65536 * block.getD (4 * g + 2) 0 + 16777216 * block.getD (4 * g + 3) 0

/-- One of the 64 MD5 rounds, on state `(A, B, C, D)`. -/
def md5Round (M : Nat → Nat) (st : Nat × Nat × Nat × Nat) (i : Nat) :
    Nat × Nat × Nat × Nat :=
  let A := st.1
  let B := st.2.1
  let C := st.2.2.1
  let D := st.2.2.2
  let fg : Nat × Nat :=
    if i < 16 then ((B &&& C) ||| ((w32 - 1 - B) &&& D), i)
    else if i < 32 then ((D &&& B) ||| ((w32 - 1 - D) &&& C), (5 * i + 1) % 16)
    else if i < 48 then (B ^^^ C ^^^ D, (3 * i + 5) % 16)
    else (C ^^^ (B ||| (w32 - 1 - D)), (7 * i) % 16)
  let f := (fg.1 + A + md5K.getD i 0 + M fg.2) % w32
  (D, (B + rotl32 f (md5S.getD i 0)) % w32, B, C)

/-- Process one 64-byte block. -/
def md5Block (st : Nat × Nat × Nat × Nat) (block : List Nat) :
    Nat × Nat × Nat × Nat :=
  let r := (List.range 64).foldl (md5Round (wordAt block)) st
  ((st.1 + r.1) % w32, (st.2.1 + r.2.1) % w32,
    (st.2.2.1 + r.2.2.1) % w32, (st.2.2.2 + r.2.2.2) % w32)

/-- The 8-byte little-endian encoding of the message bit length. -/
def lenBytes : Nat → Nat → List Nat
  | 0, _ => []
  | k + 1, n => n % 256 :: lenBytes k (n / 256)

/-- MD5 padding: a `0x80` byte, zeros up to 56 mod 64, then the 64-bit
little-endian bit length. -/
def padMessage (m : List Nat) : List Nat :=
  m ++ (0x80 :: List.replicate ((119 - m.length % 64) % 64) 0)
    ++ lenBytes 8 (m.length * 8)

/-- Split the padded message into 64-byte blocks (`fuel` bounds the
recursion and is instantiated with the length of the list). -/
def chunks64 : Nat → List Nat → List (List Nat)
  | 0, _ => []
  | _, [] => []
  | fuel + 1, l => l.take 64 :: chunks64 fuel (l.drop 64)

/-- The four bytes of a 32-bit word, little-endian. -/
def wordLE (w : Nat) : List Nat :=
  [w % 256, w / 256 % 256, w / 65536 % 256, w / 16777216 % 256]

/-- The MD5 digest (16 bytes) of a byte sequence, per RFC 1321; this is
what `crypto/md5`'s `h.Sum(nil)` returns in `buildName`. -/
def md5 (msg : List Nat) : List Nat :=
  let padded := padMessage (msg.map (fun b => b % 256))
  let st := (chunks64 padded.length padded).foldl md5Block
    (0x67452301, 0xefcdab89, 0x98badcfe, 0x10325476)
  wordLE st.1 ++ wordLE st.2.1 ++ wordLE st.2.2.1 ++ wordLE st.2.2.2

/-- The URL-safe base64 alphabet used by `base64.URLEncoding`. -/
def b64Alphabet : Bytes :=
  "ABCDEFGHIJKLMNOPQRSTUVWXYZabcdefghijklmnopqrstuvwxyz0123456789-_".toList

/-- The alphabet character for a 6-bit group. -/
def b64Char (n : Nat) : Char := b64Alphabet.getD n 'A'

/-- URL-safe base64 with `=` padding, as produced by
`base64.URLEncoding.EncodeToString`. -/
def b64encode : List Nat → Bytes
  | [] => []
  | [a] => [b64Char (a / 4), b64Char (a % 4 * 16), '=', '=']
  | [a, b] => [b64Char (a / 4), b64Char (a % 4 * 16 + b / 16), b64Char (b % 16 * 4), '=']
  | a :: b :: c :: rest =>
    b64Char (a / 4) :: b64Char (a % 4 * 16 + b / 16)
      :: b64Char (b % 16 * 4 + c / 64) :: b64Char (c % 64) :: b64encode rest

/-- The bytes of a byte string, as fed to the hash. -/
def bytesOf (s : Bytes) : List Nat := s.map (fun c => c.toNat % 256)

/-- The `buildName` function of `recorder.go`: hash the serialized request,
base64-url-encode the digest, keep the first 8 characters, and attach the
`.req.txt` / `.res.txt` suffixes. -/
def buildName (b : Bytes) : Bytes × Bytes :=
  let s := b64encode (md5 (bytesOf b))
  (s.take 8 ++ ".req.txt".toList, s.take 8 ++ ".res.txt".toList)

/-! ### The fixture store and the effect model

A fixture store (`fs.FS` on the replay side, the `basepath` directory on
the record side) is an association list from file names to file contents;
`Store.set` models `os.WriteFile` (create or overwrite).  Each transport
invocation also produces a trace of the externally visible effects it
performed, in order. -/

/-- A fixture store: named byte blobs. -/
abbrev Store := List (Bytes × Bytes)

/-- Write a file: create it or overwrite an existing file of that name
(`os.WriteFile`). -/
def Store.set (s : Store) (name content : Bytes) : Store :=
  (name, content) :: s.filter (fun p => !(p.1 == name))

/-- The file names present in the store. -/
def Store.names (s : Store) : List Bytes := s.map Prod.fst

/-- Read a file by name (`fs.ReadFile`). -/
def Store.read? (s : Store) (name : Bytes) : Option Bytes :=
  (s.find? (fun p => p.1 == name)).map Prod.snd

/-- The matches of the glob pattern `"*" ++ sfx` over the store: every
file name ending with `sfx` (the `*` of `fs.Glob` matches any sequence of
non-separator characters, and fixture names are flat).  `fs.Glob` returns
the matches sorted; the order is irrelevant here because replay behavior
depends only on the number of matches and on the unique match. -/
def globSuffix (s : Store) (sfx : Bytes) : List Bytes :=
  (Store.names s).filter (fun n => sfx.isSuffixOf n)

/-- The externally visible effects of one `RoundTrip` call. -/
inductive Event where
  /-- The `os.MkdirAll(basepath, 0o755)` call; the flag records whether it
  failed.  Its error is discarded by the code (`_ =`). -/
  | mkdirAttempt (failed : Bool)
  /-- An `os.WriteFile` call for the named fixture; the flag records
  whether it succeeded. -/
  | fileWrite (name : Bytes) (ok : Bool)
  /-- The invocation of the underlying transport (`rt.RoundTrip`), with
  the request object it was handed. -/
  | netCall (r : Request)
  /-- The `fs.Glob` lookup of the replay transport. -/
  | globSearch
  /-- The `fs.ReadFile` of a matched fixture. -/
  | fileRead (name : Bytes)
deriving DecidableEq

/-- Whether a trace contains any file write. -/
def hasFileWrite (evs : List Event) : Bool :=
  evs.any (fun e => match e with | Event.fileWrite _ _ => true | _ => false)

/-- Whether a trace contains any network call. -/
def hasNetCall (evs : List Event) : Bool :=
  evs.any (fun e => match e with | Event.netCall _ => true | _ => false)

/-- The file-system environment of a recording call: whether directory
creation would fail, and per-file write failures.  `defaultTransport`
models the package-level `http.DefaultTransport`. -/
structure Env where
  mkdirErr : Option Bytes
  writeErr : Bytes → Option Bytes
  defaultTransport : Request → Except Bytes Response

/-- The optional request/response filters (`*Filters` may be nil, and
each member may be nil).  In Go the filters mutate the object passed to
them in place; here they are the resulting transformation. -/
structure Filters where
  requestFilter : Option (Request → Request)
  responseFilter : Option (Response → Response)

/-- Apply the request filter, if installed, to (the clone of) a request. -/
def applyRequestFilter : Option Filters → Request → Request
  | some ⟨some rf, _⟩, r => rf r
  | _, r => r

/-- Apply the response filter, if installed, to a response. -/
def applyResponseFilter : Option Filters → Response → Response
  | some ⟨_, some rf⟩, r => rf r
  | _, r => r

@[simp] theorem applyRequestFilter_none (r : Request) :
    applyRequestFilter none r = r := rfl

@[simp] theorem applyResponseFilter_none (r : Response) :
    applyResponseFilter none r = r := rfl

/-- The failure cases of a recording call, before wrapping. -/
inductive RecordError where
  | writeReqFailed (name msg : Bytes)
  | transportFailed (msg : Bytes)
  | writeResFailed (name msg : Bytes)
deriving DecidableEq

/-- The failure cases of a replay call, before wrapping. -/
inductive ReplayError where
  | notFound (pat : Bytes)
  | ambiguous (pat : Bytes)
  | readFailed (name : Bytes)
  | parseFailed
deriving DecidableEq

/-- Does `errors.Is(err, errNotFound)` hold?  The sentinel survives the
`%w` wrapping, so this is decidable on the wrapped error's cause. -/
def ReplayError.isNotFound : ReplayError → Bool
  | .notFound _ => true
  | _ => false

/-- An error wrapped with context by the deferred
`fmt.Errorf("...: %w", err)` of the transports. -/
structure Wrapped (ε : Type) where
  context : Bytes
  cause : ε
deriving DecidableEq

/-- The wrapping context of recording errors. -/
def recCtx : Bytes := "problem while recording transport".toList

/-- The wrapping context of replay errors. -/
def repCtx : Bytes := "problem while replaying transport".toList

/-- The request fixture name derived from a request (no filters). -/
def reqnameOf (r : Request) : Bytes := (buildName (dumpRequest r)).1

/-- The response fixture name derived from a request (no filters). -/
def resnameOf (r : Request) : Bytes := (buildName (dumpRequest r)).2

/-- One invocation of the transport returned by `Record(rt, basepath, f)`,
following `recorder.go` line by line: attempt `os.MkdirAll` and discard
its error; clone the request and apply the request filter to the clone;
serialize the filtered clone; write the request fixture; invoke the
underlying transport (the default transport when `rt` is nil) with the
original request; apply the response filter to the live response in
place; serialize and write the response fixture; return the (filtered)
live response.  Every error is returned wrapped with `recCtx`.  The
result is the final store, the effect trace, and the call's outcome. -/
def recordStep (env : Env) (rt? : Option (Request → Except Bytes Response))
    (f : Option Filters) (store : Store) (req : Request) :
    Store × List Event × Except (Wrapped RecordError) Response :=
  let rt := rt?.getD env.defaultTransport
  let dumpReq := applyRequestFilter f req
  let b := dumpRequest dumpReq
  let reqname := (buildName b).1
  let resname := (buildName b).2
  let ev0 : List Event := [Event.mkdirAttempt env.mkdirErr.isSome]
  match env.writeErr reqname with
  | some msg =>
    (store, ev0 ++ [Event.fileWrite reqname false],
      Except.error ⟨recCtx, RecordError.writeReqFailed reqname msg⟩)
  | none =>
    let store1 := Store.set store reqname b
    let ev1 := ev0 ++ [Event.fileWrite reqname true]
    match rt req with
    | Except.error msg =>
      (store1, ev1 ++ [Event.netCall req],
        Except.error ⟨recCtx, RecordError.transportFailed msg⟩)
    | Except.ok res =>
      let res1 := applyResponseFilter f res
      let rb := dumpResponse res1
      match env.writeErr resname with
      | some msg =>
        (store1, ev1 ++ [Event.netCall req, Event.fileWrite resname false],
          Except.error ⟨recCtx, RecordError.writeResFailed resname msg⟩)
      | none =>
        (Store.set store1 resname rb,
          ev1 ++ [Event.netCall req, Event.fileWrite resname true],
          Except.ok res1)

/-- One invocation of the transport returned by `ReplayFS(fsys)`:
serialize the incoming request, derive the response fixture name, glob
for `"*" ++ name`, fail not-found on zero matches, fail ambiguous on more
than one, otherwise read the single match and parse it with
`http.ReadResponse`.  Every error is returned wrapped with `repCtx`. -/
def replayStep (store : Store) (req : Request) :
    List Event × Except (Wrapped ReplayError) Response :=
  let b := dumpRequest req
  let name := (buildName b).2
  let pat := '*' :: name
  match globSuffix store name with
  | [] => ([Event.globSearch], Except.error ⟨repCtx, ReplayError.notFound pat⟩)
  | [m] =>
    match Store.read? store m with
    | none =>
      ([Event.globSearch, Event.fileRead m],
        Except.error ⟨repCtx, ReplayError.readFailed m⟩)
    | some bytes =>
      match readResponse bytes with
      | none =>
        ([Event.globSearch, Event.fileRead m],
          Except.error ⟨repCtx, ReplayError.parseFailed⟩)
      | some res => ([Event.globSearch, Event.fileRead m], Except.ok res)
  | _ :: _ :: _ => ([Event.globSearch], Except.error ⟨repCtx, ReplayError.ambiguous pat⟩)

/-! ### Store lemmas -/

theorem Store.read_set_self (s : Store) (n c : Bytes) :
    Store.read? (Store.set s n c) n = some c := by
  simp [Store.read?, Store.set, List.find?_cons_of_pos]

theorem find?_key_filter_ne (t : List (Bytes × Bytes)) {n m : Bytes}
    (h : n ≠ m) :
    (t.filter (fun p => !(p.1 == n))).find? (fun p => p.1 == m)
      = t.find? (fun p => p.1 == m) := by
  induction t with
  | nil => rfl
  | cons p t ih =>
    rcases eq_or_ne p.1 n with hn | hn
    · have hf : (!(p.1 == n)) = false := by simp [hn]
      have hb : (p.1 == m) = false := by
        simp only [beq_eq_false_iff_ne, ne_eq, hn]
        exact h
      rw [List.filter_cons, hf]
      simp only [Bool.false_eq_true, if_false, List.find?_cons, hb]
      exact ih
    · have hf : (!(p.1 == n)) = true := by simp [hn]
      rw [List.filter_cons, hf]
      simp only [if_true]
      rcases eq_or_ne p.1 m with hm | hm
      · have hb : (p.1 == m) = true := by simp [hm]
        simp only [List.find?_cons, hb]
      · have hb : (p.1 == m) = false := by simp [hm]
        simp only [List.find?_cons, hb]
        exact ih

theorem Store.read_set_ne (s : Store) {n m : Bytes} (c : Bytes) (h : n ≠ m) :
    Store.read? (Store.set s n c) m = Store.read? s m := by
  unfold Store.read? Store.set
  have hb : ((n, c).1 == m) = false := by simpa using h
  simp only [List.find?_cons, hb]
  rw [find?_key_filter_ne s h]

theorem Store.names_set (s : Store) (n c : Bytes) :
    Store.names (Store.set s n c)
      = n :: (Store.names s).filter (fun m => !(m == n)) := by
  unfold Store.names Store.set
  simp only [List.map_cons, List.cons.injEq, true_and]
  induction s with
  | nil => rfl
  | cons p t ih =>
    by_cases hp : p.1 = n
    · simp [List.filter_cons, hp, ih]
    · simp [List.filter_cons, hp, ih]

/-! ### Structural facts about the fingerprint -/

theorem md5_length (msg : List Nat) : (md5 msg).length = 16 := by
  simp [md5, wordLE]

theorem b64encode_length :
    ∀ (n : Nat) (l : List Nat), l.length ≤ n →
      (b64encode l).length = 4 * ((l.length + 2) / 3)
  | _, [], _ => by simp [b64encode]
  | _, [_], _ => by simp [b64encode]
  | _, [_, _], _ => by simp [b64encode]
  | 0, _ :: _ :: _ :: _, h => by simp at h
  | n + 1, a :: b :: c :: r, h => by
    have hr : r.length ≤ n := by simp at h; omega
    have ih := b64encode_length n r hr
    simp only [b64encode, List.length_cons, ih]
    omega

/-- Every character the encoder emits from the alphabet is URL-safe
(alphanumeric, `-` or `_`). -/
def urlSafeChar (c : Char) : Bool := c.isAlphanum || c == '-' || c == '_'

theorem b64Char_urlSafe (n : Nat) : urlSafeChar (b64Char n) = true := by
  unfold b64Char
  rcases Nat.lt_or_ge n b64Alphabet.length with h | h
  · rw [List.getD_eq_getElem?_getD, List.getElem?_eq_getElem h]
    have hmem : b64Alphabet[n] ∈ b64Alphabet := List.getElem_mem h
    have hall : ∀ c ∈ b64Alphabet, urlSafeChar c = true := by decide
    exact hall _ hmem
  · rw [List.getD_eq_getElem?_getD, List.getElem?_eq_none h]
    decide

/-- All characters within the full three-byte groups of the encoding are
URL-safe; padding `=` can only appear later. -/
theorem b64encode_take_urlSafe :
    ∀ (k : Nat) (l : List Nat), 3 * k ≤ l.length →
      ∀ c ∈ (b64encode l).take (4 * k), urlSafeChar c = true
  | 0, _, _ => by simp
  | k + 1, [], h => by simp at h
  | k + 1, [_], h => by simp at h; omega
  | k + 1, [_, _], h => by simp at h; omega
  | k + 1, a :: b :: c :: r, h => by
    have hr : 3 * k ≤ r.length := by simp at h; omega
    have ih := b64encode_take_urlSafe k r hr
    intro x hx
    have hshape : 4 * (k + 1) = (4 * k) + 1 + 1 + 1 + 1 := by omega
    rw [b64encode, hshape] at hx
    simp only [List.take_succ_cons, List.mem_cons] at hx
    rcases hx with rfl | rfl | rfl | rfl | hx
    · exact b64Char_urlSafe _
    · exact b64Char_urlSafe _
    · exact b64Char_urlSafe _
    · exact b64Char_urlSafe _
    · exact ih x hx

theorem buildName_fst_ne_snd (b : Bytes) : (buildName b).1 ≠ (buildName b).2 := by
  unfold buildName
  intro h
  have := List.append_cancel_left h
  exact absurd this (by decide)

theorem resname_not_suffix_reqname (b : Bytes) :
    ¬ (buildName b).2 <:+ (buildName b).1 := by
  intro h
  have hlen : (buildName b).2.length = (buildName b).1.length := by
    simp [buildName]
  exact buildName_fst_ne_snd b (h.eq_of_length hlen).symm

/-- After recording request fixture `reqname ↦ b` and response fixture
`resname ↦ rb` into a store previously free of names ending in
`resname`, the glob for `resname` finds exactly the response fixture. -/
theorem glob_after_record (store : Store) (b rb : Bytes)
    (hclean : globSuffix store (buildName b).2 = []) :
    globSuffix
      (Store.set (Store.set store (buildName b).1 b) (buildName b).2 rb)
      (buildName b).2 = [(buildName b).2] := by
  have hall : ∀ y ∈ Store.names store, ¬ ((buildName b).2.isSuffixOf y = true) :=
    List.filter_eq_nil_iff.mp hclean
  unfold globSuffix
  rw [Store.names_set, Store.names_set]
  rw [List.filter_cons]
  have hself : ((buildName b).2.isSuffixOf (buildName b).2) = true :=
    List.isSuffixOf_iff_suffix.mpr List.suffix_rfl
  rw [hself]
  simp only [if_true, List.cons.injEq, true_and]
  rw [List.filter_eq_nil_iff]
  intro x hx
  have hx1 := List.mem_of_mem_filter hx
  rcases List.mem_cons.mp hx1 with rfl | hx2
  · intro hs
    exact resname_not_suffix_reqname b (List.isSuffixOf_iff_suffix.mp hs)
  · exact hall x (List.mem_of_mem_filter hx2)

/-! ### Shared concrete fixtures for witnesses -/

/-- A concrete request used by the witnesses. -/
def wReq : Request :=
  ⟨"GET".toList, "/status".toList, [("Accept".toList, "text/plain".toList)], []⟩

/-- A concrete response used by the witnesses. -/
def wRes : Response :=
  ⟨"200 OK".toList, [("Content-Type".toList, "text/plain".toList)], "ok".toList⟩

/-- An environment in which directory creation and all writes succeed. -/
def okEnv : Env := ⟨none, fun _ => none, fun _ => Except.error []⟩

/-- A transport that always answers `wRes`. -/
def wTransport : Request → Except Bytes Response := fun _ => Except.ok wRes

/-! ### The claims -/

/-- C2: `buildName` is a pure function of the serialized bytes returning a
request file name and a response file name that share the same
8-character URL-safe hash prefix and end in `.req.txt` / `.res.txt`
respectively; identical bytes yield identical names because `buildName`
is a function. -/
theorem claim2_buildName_shape (b : Bytes) :
    ∃ p : Bytes, p.length = 8 ∧ (∀ c ∈ p, urlSafeChar c = true) ∧
      buildName b = (p ++ ".req.txt".toList, p ++ ".res.txt".toList) := by
  refine ⟨(b64encode (md5 (bytesOf b))).take 8, ?_, ?_, rfl⟩
  · rw [List.length_take]
    have h24 : (b64encode (md5 (bytesOf b))).length = 24 := by
      rw [b64encode_length _ _ le_rfl, md5_length]
    rw [h24]
    decide
  · intro c hc
    have h16 : 3 * 2 ≤ (md5 (bytesOf b)).length := by rw [md5_length]; omega
    exact b64encode_take_urlSafe 2 _ h16 c hc

/-- C10: calling `Record` with a nil underlying transport yields a
transport that behaves exactly as if `http.DefaultTransport` had been
passed; it does not fail or panic. -/
theorem claim10_nil_transport (env : Env) (f : Option Filters)
    (store : Store) (req : Request) :
    recordStep env none f store req
      = recordStep env (some env.defaultTransport) f store req := rfl

/-- C9: the replay transport performs no network call, and its outcome is
a function of the store and the serialized request bytes alone: two
requests with byte-identical serialization get identical results. -/
theorem claim9_replay_offline_deterministic :
    (∀ (store : Store) (req : Request),
        hasNetCall (replayStep store req).1 = false) ∧
    (∀ (store : Store) (r₁ r₂ : Request), dumpRequest r₁ = dumpRequest r₂ →
        replayStep store r₁ = replayStep store r₂) := by
  constructor
  · intro store req
    simp only [replayStep]
    split
    · rfl
    · split
      · rfl
      · split <;> rfl
    · rfl
  · intro store r₁ r₂ h
    simp only [replayStep, h]

/-- C9 witness. -/
theorem claim9_witness :
    hasNetCall (replayStep [] wReq).1 = false ∧
      replayStep [] wReq = replayStep [] wReq :=
  ⟨claim9_replay_offline_deterministic.1 [] wReq,
    claim9_replay_offline_deterministic.2 [] wReq wReq rfl⟩

/-- C3: when more than one stored file name ends with the response file
name derived from the request, replay fails with the ambiguous error (and
hence returns no response built from any of the matches). -/
theorem claim3_ambiguous (store : Store) (req : Request)
    (h : 2 ≤ (globSuffix store (resnameOf req)).length) :
    (replayStep store req).2
      = Except.error ⟨repCtx, ReplayError.ambiguous ('*' :: resnameOf req)⟩ := by
  unfold resnameOf at h
  simp only [replayStep]
  rcases hg : globSuffix store (buildName (dumpRequest req)).2 with _ | ⟨m, _ | ⟨m2, tl⟩⟩
  · rw [hg] at h; simp at h
  · rw [hg] at h; simp at h
  · rfl

/-- C3 witness store: two differently-prefixed fixtures sharing the
response-name suffix of `wReq`. -/
def ambStore : Store :=
  [('a' :: resnameOf wReq, []), ('b' :: resnameOf wReq, [])]

theorem isSuffixOf_cons_self (c : Char) (l : Bytes) :
    (l.isSuffixOf (c :: l)) = true :=
  List.isSuffixOf_iff_suffix.mpr (List.suffix_cons c l)

/-- C3 witness. -/
theorem claim3_witness :
    2 ≤ (globSuffix ambStore (resnameOf wReq)).length ∧
      (replayStep ambStore wReq).2
        = Except.error ⟨repCtx, ReplayError.ambiguous ('*' :: resnameOf wReq)⟩ := by
  have hlen : 2 ≤ (globSuffix ambStore (resnameOf wReq)).length := by
    unfold globSuffix ambStore Store.names
    simp only [List.map_cons, List.map_nil, List.filter,
      isSuffixOf_cons_self]
    simp
  exact ⟨hlen, claim3_ambiguous ambStore wReq hlen⟩

/-- C4: when no stored file name ends with the derived response file
name, replay fails with the not-found error, and that error kind is
distinguishable (via the `errNotFound` sentinel) from read (I/O) errors
and parse (serialization) errors. -/
theorem claim4_notFound (store : Store) (req : Request)
    (h : globSuffix store (resnameOf req) = []) :
    (replayStep store req).2
        = Except.error ⟨repCtx, ReplayError.notFound ('*' :: resnameOf req)⟩ ∧
      ReplayError.isNotFound (ReplayError.notFound ('*' :: resnameOf req)) = true ∧
      (∀ n : Bytes, ReplayError.isNotFound (ReplayError.readFailed n) = false) ∧
      ReplayError.isNotFound ReplayError.parseFailed = false := by
  refine ⟨?_, rfl, fun _ => rfl, rfl⟩
  unfold resnameOf at h
  simp only [replayStep]
  rw [h]
  rfl

/-- C4 witness: the empty store. -/
theorem claim4_witness :
    globSuffix [] (resnameOf wReq) = [] ∧
      (replayStep [] wReq).2
        = Except.error ⟨repCtx, ReplayError.notFound ('*' :: resnameOf wReq)⟩ :=
  ⟨rfl, (claim4_notFound [] wReq rfl).1⟩

/-- The request fixture name the recorder derives (filters applied to the
clone that gets serialized). -/
def reqnameOfF (f : Option Filters) (r : Request) : Bytes :=
  (buildName (dumpRequest (applyRequestFilter f r))).1

/-- The response fixture name the recorder derives. -/
def resnameOfF (f : Option Filters) (r : Request) : Bytes :=
  (buildName (dumpRequest (applyRequestFilter f r))).2

/-- C8: when the underlying transport fails, the recording call returns
that error wrapped, after exactly one mkdir attempt, one request-fixture
write and one network call (no retry); the request fixture is in the
store and no response fixture was written. -/
theorem claim8_transport_error (env : Env) (t : Request → Except Bytes Response)
    (store : Store) (req : Request) (emsg : Bytes)
    (hw : env.writeErr (reqnameOf req) = none)
    (ht : t req = Except.error emsg) :
    recordStep env (some t) none store req
        = (Store.set store (reqnameOf req) (dumpRequest req),
           [Event.mkdirAttempt env.mkdirErr.isSome,
            Event.fileWrite (reqnameOf req) true, Event.netCall req],
           Except.error ⟨recCtx, RecordError.transportFailed emsg⟩) ∧
      Store.read? (Store.set store (reqnameOf req) (dumpRequest req)) (resnameOf req)
        = Store.read? store (resnameOf req) := by
  constructor
  · simp only [recordStep, applyRequestFilter_none, Option.getD_some]
    unfold reqnameOf at hw
    rw [hw, ht]
    rfl
  · exact Store.read_set_ne store _ (buildName_fst_ne_snd (dumpRequest req))

/-- A transport that always fails. -/
def errTransport : Request → Except Bytes Response :=
  fun _ => Except.error "boom".toList

/-- C8 witness. -/
theorem claim8_witness :
    okEnv.writeErr (reqnameOf wReq) = none ∧
      errTransport wReq = Except.error "boom".toList ∧
      (recordStep okEnv (some errTransport) none [] wReq
          = (Store.set [] (reqnameOf wReq) (dumpRequest wReq),
             [Event.mkdirAttempt okEnv.mkdirErr.isSome,
              Event.fileWrite (reqnameOf wReq) true, Event.netCall wReq],
             Except.error ⟨recCtx, RecordError.transportFailed "boom".toList⟩) ∧
        Store.read? (Store.set [] (reqnameOf wReq) (dumpRequest wReq)) (resnameOf wReq)
          = Store.read? [] (resnameOf wReq)) :=
  ⟨rfl, rfl, claim8_transport_error okEnv errTransport [] wReq _ rfl rfl⟩

/-- C7 counterexample: with a failing directory creation (and the write
failure it entails), the call still performs file activity — it attempts
to write the request fixture — contradicting the claim that it aborts
before any file activity. -/
def badEnv : Env :=
  ⟨some "permission denied".toList,
   fun _ => some "no such directory".toList,
   fun _ => Except.error []⟩

theorem claim7_counterexample :
    badEnv.mkdirErr.isSome = true ∧
      hasFileWrite (recordStep badEnv (some wTransport) none [] wReq).2.1 = true :=
  ⟨rfl, rfl⟩

/-- C7 (amended): the error of `os.MkdirAll` is discarded (`_ =`); when
the directory cannot be created and the request-fixture write then fails,
the call aborts before any network activity, leaves the store unchanged,
and returns the wrapped *write* error. -/
theorem claim7_mkdir_error_discarded (env : Env)
    (rt? : Option (Request → Except Bytes Response)) (f : Option Filters)
    (store : Store) (req : Request) (wmsg : Bytes)
    (hm : env.mkdirErr.isSome = true)
    (hw : env.writeErr (reqnameOfF f req) = some wmsg) :
    recordStep env rt? f store req
        = (store,
           [Event.mkdirAttempt true, Event.fileWrite (reqnameOfF f req) false],
           Except.error ⟨recCtx, RecordError.writeReqFailed (reqnameOfF f req) wmsg⟩) ∧
      hasNetCall (recordStep env rt? f store req).2.1 = false := by
  have hmain : recordStep env rt? f store req
      = (store,
         [Event.mkdirAttempt true, Event.fileWrite (reqnameOfF f req) false],
         Except.error ⟨recCtx, RecordError.writeReqFailed (reqnameOfF f req) wmsg⟩) := by
    simp only [recordStep]
    unfold reqnameOfF at hw
    rw [hw, hm]
    rfl
  exact ⟨hmain, by rw [hmain]; rfl⟩

/-- C7 witness (for the amended claim). -/
theorem claim7_witness :
    badEnv.mkdirErr.isSome = true ∧
      badEnv.writeErr (reqnameOfF none wReq) = some "no such directory".toList ∧
      (recordStep badEnv (some wTransport) none [] wReq
          = ([],
             [Event.mkdirAttempt true, Event.fileWrite (reqnameOfF none wReq) false],
             Except.error ⟨recCtx,
               RecordError.writeReqFailed (reqnameOfF none wReq) "no such directory".toList⟩) ∧
        hasNetCall (recordStep badEnv (some wTransport) none [] wReq).2.1 = false) :=
  ⟨rfl, rfl, claim7_mkdir_error_discarded badEnv (some wTransport) none [] wReq _ rfl rfl⟩

/-- The response filter of the C6 scenario: redact the body before the
response is persisted. -/
def redactBody : Response → Response := fun r => { r with body := "redacted".toList }

/-- C6 counterexample: recording with a response filter installed returns
the *filtered* response to the caller (the filter mutates the live
response in place before it is serialized), so the live response is
altered, contrary to the claim. -/
theorem claim6_counterexample :
    (recordStep okEnv (some wTransport) (some ⟨none, some redactBody⟩) [] wReq).2.2
        = Except.ok (redactBody wRes) ∧
      redactBody wRes ≠ wRes :=
  ⟨rfl, by decide⟩

/-- C6 (amended): the response filter is applied in place to the live
response before serialization, so its changes affect both the persisted
response fixture and the response returned to the caller. -/
theorem claim6_filter_in_place (env : Env) (t : Request → Except Bytes Response)
    (rf? : Option (Request → Request)) (g : Response → Response)
    (store : Store) (req : Request) (res : Response)
    (hw1 : env.writeErr (reqnameOfF (some ⟨rf?, some g⟩) req) = none)
    (hw2 : env.writeErr (resnameOfF (some ⟨rf?, some g⟩) req) = none)
    (ht : t req = Except.ok res) :
    (recordStep env (some t) (some ⟨rf?, some g⟩) store req).2.2
        = Except.ok (g res) ∧
      Store.read? (recordStep env (some t) (some ⟨rf?, some g⟩) store req).1
          (resnameOfF (some ⟨rf?, some g⟩) req)
        = some (dumpResponse (g res)) := by
  have hrec : recordStep env (some t) (some ⟨rf?, some g⟩) store req
      = (Store.set
           (Store.set store (reqnameOfF (some ⟨rf?, some g⟩) req)
             (dumpRequest (applyRequestFilter (some ⟨rf?, some g⟩) req)))
           (resnameOfF (some ⟨rf?, some g⟩) req) (dumpResponse (g res)),
         [Event.mkdirAttempt env.mkdirErr.isSome,
          Event.fileWrite (reqnameOfF (some ⟨rf?, some g⟩) req) true,
          Event.netCall req,
          Event.fileWrite (resnameOfF (some ⟨rf?, some g⟩) req) true],
         Except.ok (g res)) := by
    simp only [recordStep, Option.getD_some]
    unfold reqnameOfF at hw1
    unfold resnameOfF at hw2
    rw [hw1, ht, hw2]
    rfl
  rw [hrec]
  exact ⟨rfl, Store.read_set_self _ _ _⟩

/-- C6 witness (for the amended claim). -/
theorem claim6_witness :
    okEnv.writeErr (reqnameOfF (some ⟨none, some redactBody⟩) wReq) = none ∧
      okEnv.writeErr (resnameOfF (some ⟨none, some redactBody⟩) wReq) = none ∧
      wTransport wReq = Except.ok wRes ∧
      ((recordStep okEnv (some wTransport) (some ⟨none, some redactBody⟩) [] wReq).2.2
          = Except.ok (redactBody wRes) ∧
        Store.read? (recordStep okEnv (some wTransport) (some ⟨none, some redactBody⟩) [] wReq).1
            (resnameOfF (some ⟨none, some redactBody⟩) wReq)
          = some (dumpResponse (redactBody wRes))) :=
  ⟨rfl, rfl, rfl,
    claim6_filter_in_place okEnv wTransport none redactBody [] wReq wRes rfl rfl rfl⟩

/-- The `Authorization` header key. -/
def authKey : Bytes := "Authorization".toList

/-- A request filter that deletes every header with the given key, the
`req.Header.Del` filter of the C5 scenario. -/
def deleteHeader (k : Bytes) (r : Request) : Request :=
  { r with headers := r.headers.filter (fun kv => !(kv.1 == k)) }

/-- C5: recording a request that carries an `Authorization` header
through a request filter that deletes it writes a request fixture
serialized from the filtered clone — whose headers contain no
`Authorization` entry — while the underlying transport is invoked with
the original request, which still carries the header. -/
theorem claim5_request_filter (env : Env) (t : Request → Except Bytes Response)
    (rf2 : Option (Response → Response)) (store : Store) (req : Request)
    (v : Bytes)
    (hmem : (authKey, v) ∈ req.headers)
    (hw : env.writeErr (reqnameOfF (some ⟨some (deleteHeader authKey), rf2⟩) req) = none) :
    Store.read?
        (recordStep env (some t) (some ⟨some (deleteHeader authKey), rf2⟩) store req).1
        (reqnameOfF (some ⟨some (deleteHeader authKey), rf2⟩) req)
      = some (dumpRequest (deleteHeader authKey req)) ∧
    (∀ v', (authKey, v') ∉ (deleteHeader authKey req).headers) ∧
    Event.netCall req
      ∈ (recordStep env (some t) (some ⟨some (deleteHeader authKey), rf2⟩) store req).2.1 ∧
    (authKey, v) ∈ req.headers := by
  have hdel : ∀ v', (authKey, v') ∉ (deleteHeader authKey req).headers := by
    intro v' hv'
    unfold deleteHeader at hv'
    simp only [List.mem_filter] at hv'
    simpa using hv'.2
  have hne : reqnameOfF (some ⟨some (deleteHeader authKey), rf2⟩) req
      ≠ resnameOfF (some ⟨some (deleteHeader authKey), rf2⟩) req :=
    buildName_fst_ne_snd _
  unfold reqnameOfF at hw
  have hread : Store.read?
      (recordStep env (some t) (some ⟨some (deleteHeader authKey), rf2⟩) store req).1
      (reqnameOfF (some ⟨some (deleteHeader authKey), rf2⟩) req)
      = some (dumpRequest (deleteHeader authKey req)) := by
    simp only [recordStep, Option.getD_some]
    rw [hw]
    rcases ht : t req with e | res
    · exact Store.read_set_self store _ _
    · rcases hw2 : env.writeErr
          (buildName (dumpRequest (applyRequestFilter
            (some ⟨some (deleteHeader authKey), rf2⟩) req))).2 with _ | msg
      · exact (Store.read_set_ne _ _ (Ne.symm hne)).trans
          (Store.read_set_self store _ _)
      · exact Store.read_set_self store _ _
  have htrace : Event.netCall req
      ∈ (recordStep env (some t) (some ⟨some (deleteHeader authKey), rf2⟩) store req).2.1 := by
    simp only [recordStep, Option.getD_some]
    rw [hw]
    rcases ht : t req with e | res
    · simp
    · rcases hw2 : env.writeErr
          (buildName (dumpRequest (applyRequestFilter
            (some ⟨some (deleteHeader authKey), rf2⟩) req))).2 with _ | msg <;> simp
  exact ⟨hread, hdel, htrace, hmem⟩

/-- A concrete request carrying an `Authorization` header. -/
def wAuthReq : Request :=
  ⟨"GET".toList, "/status".toList, [(authKey, "Bearer X".toList)], []⟩

/-- C5 witness. -/
theorem claim5_witness :
    (authKey, "Bearer X".toList) ∈ wAuthReq.headers ∧
      okEnv.writeErr (reqnameOfF (some ⟨some (deleteHeader authKey), none⟩) wAuthReq) = none ∧
      (Store.read?
          (recordStep okEnv (some wTransport)
            (some ⟨some (deleteHeader authKey), none⟩) [] wAuthReq).1
          (reqnameOfF (some ⟨some (deleteHeader authKey), none⟩) wAuthReq)
        = some (dumpRequest (deleteHeader authKey wAuthReq)) ∧
      (∀ v', (authKey, v') ∉ (deleteHeader authKey wAuthReq).headers) ∧
      Event.netCall wAuthReq
        ∈ (recordStep okEnv (some wTransport)
            (some ⟨some (deleteHeader authKey), none⟩) [] wAuthReq).2.1 ∧
      (authKey, "Bearer X".toList) ∈ wAuthReq.headers) :=
  ⟨by decide, rfl,
    claim5_request_filter okEnv wTransport none [] wAuthReq _ (by decide) rfl⟩

/-- C1: recording a request/response pair (no filters, writes succeed,
the transport answers, the store holds no other name ending with the
derived response name), then replaying a byte-identical request over the
resulting store, returns to the replay caller exactly the response that
the recording call returned and persisted — same status, headers and
body. -/
theorem claim1_round_trip (env : Env) (t : Request → Except Bytes Response)
    (store : Store) (req r2 : Request) (res : Response)
    (hw1 : env.writeErr (reqnameOf req) = none)
    (hw2 : env.writeErr (resnameOf req) = none)
    (ht : t req = Except.ok res)
    (hres : wfResponse res)
    (hclean : globSuffix store (resnameOf req) = [])
    (hb : dumpRequest r2 = dumpRequest req) :
    (recordStep env (some t) none store req).2.2 = Except.ok res ∧
      (replayStep (recordStep env (some t) none store req).1 r2).2
        = Except.ok res := by
  unfold reqnameOf at hw1
  unfold resnameOf at hw2 hclean
  have hrec : recordStep env (some t) none store req
      = (Store.set
           (Store.set store (buildName (dumpRequest req)).1 (dumpRequest req))
           (buildName (dumpRequest req)).2 (dumpResponse res),
         [Event.mkdirAttempt env.mkdirErr.isSome,
          Event.fileWrite (buildName (dumpRequest req)).1 true,
          Event.netCall req,
          Event.fileWrite (buildName (dumpRequest req)).2 true],
         Except.ok res) := by
    simp only [recordStep, applyRequestFilter_none, applyResponseFilter_none,
      Option.getD_some]
    rw [hw1, ht, hw2]
    rfl
  rw [hrec]
  refine ⟨rfl, ?_⟩
  simp only [replayStep, hb]
  rw [glob_after_record store (dumpRequest req) (dumpResponse res) hclean]
  dsimp only
  rw [Store.read_set_self]
  dsimp only
  rw [readResponse_dumpResponse hres]

/-- C1 witness. -/
theorem claim1_witness :
    okEnv.writeErr (reqnameOf wReq) = none ∧
      okEnv.writeErr (resnameOf wReq) = none ∧
      wTransport wReq = Except.ok wRes ∧
      wfResponse wRes ∧
      globSuffix [] (resnameOf wReq) = [] ∧
      dumpRequest wReq = dumpRequest wReq ∧
      ((recordStep okEnv (some wTransport) none [] wReq).2.2 = Except.ok wRes ∧
        (replayStep (recordStep okEnv (some wTransport) none [] wReq).1 wReq).2
          = Except.ok wRes) :=
  ⟨rfl, rfl, rfl, by decide, rfl, rfl,
    claim1_round_trip okEnv wTransport [] wReq wReq wRes rfl rfl rfl (by decide) rfl rfl⟩
